import Mathlib

/-!
Shallow embedding of the arena allocator in `src/arena.h` of
connor-mclean/connor-mclean.github.io.

Modelling conventions:

* The machine is 64-bit: `uintptr_t`/`size_t` values are natural numbers
  below `W64 = 2^64`, and the arithmetic the C code performs on them is
  modelled with explicit wraparound (`wadd`, `wsub`, `% W64`) at exactly
  the places where the C code adds or subtracts machine words.
* Memory is a flat byte store `Mem : Nat → Nat` mapping an address to the
  byte stored there.  The arena's backing block starts at address
  `Arena.mem`; `NULL` is address `0`.  `memset`/`memcpy`/`memmove` are the
  C library routines, modelled by their standard semantics on this store
  (`memmove` copies as if through a temporary buffer, i.e. every
  destination byte reads from the pre-call store).
* Fallible calls return `Option Nat` (`none` = the C code returned `NULL`
  after setting `errno`); the `errno` value itself is not modelled.
* `assert` (active only in debug builds) is not modelled; all theorems
  instantiate arguments that satisfy the asserted preconditions.
-/

/-- `2^64`, one past the largest `uintptr_t` / `size_t` value. -/
def W64 : Nat := 2 ^ 64

/-- Machine-word addition with wraparound (C unsigned overflow). -/
def wadd (x y : Nat) : Nat := (x + y) % W64

/-- Machine-word subtraction with wraparound (C unsigned underflow). -/
def wsub (x y : Nat) : Nat := (x + (W64 - y % W64)) % W64

/-- `static inline bool pow_2(const uintptr_t v) { return (v&(v-1)) == 0; }`
(`src/arena.h:18`).  Note that `v - 1` is `uintptr_t` subtraction, which
wraps around at `v = 0`. -/
def pow_2 (v : Nat) : Bool := v &&& wsub v 1 == 0

/-- `align_forward` (`src/arena.h:26-35`): bitmask forward alignment.
`mod = p & (a - 1)`; if nonzero, `p += a - mod`.  All operations are
`uintptr_t` arithmetic, hence the wraparound helpers. -/
def align_forward (ptr alignment : Nat) : Nat :=
  let p := ptr
  let mod := p &&& wsub alignment 1
  if mod ≠ 0 then wadd p (wsub alignment mod) else p

/-- The `arena` struct (`src/arena.h:40-46`).  `mem` is the base address of
the backing block (`unsigned char *`); the other three fields are `size_t`. -/
structure Arena where
  mem : Nat
  cap : Nat
  curr_offset : Nat
  prev_offset : Nat
  deriving DecidableEq, Repr

/-- Flat byte memory: address to stored byte. -/
def Mem : Type := Nat → Nat

/-- C `memset(p, v, n)`: store `v` at every address in `[p, p+n)`. -/
def memset (m : Mem) (p v n : Nat) : Mem :=
  fun addr => if p ≤ addr ∧ addr < p + n then v else m addr

/-- C `memmove(dst, src, n)`: copy `[src, src+n)` over `[dst, dst+n)` as if
through a temporary buffer (every destination byte reads the pre-call
store). -/
def memmove (m : Mem) (dst src n : Nat) : Mem :=
  fun addr => if dst ≤ addr ∧ addr < dst + n then m (src + (addr - dst)) else m addr

/-- C `memcpy(dst, src, n)` (the arena only ever calls it on disjoint
regions, where it coincides with `memmove`). -/
def memcpy (m : Mem) (dst src n : Nat) : Mem :=
  fun addr => if dst ≤ addr ∧ addr < dst + n then m (src + (addr - dst)) else m addr

/-- A single byte store, `p[0] = v`. -/
def store (m : Mem) (p v : Nat) : Mem :=
  fun addr => if addr = p then v else m addr

/-- `arena_aligned_alloc` (`src/arena.h:57-70`):
`curr = (uintptr_t)a->mem + (uintptr_t)a->curr_offset`;
`offset = align_forward(curr, alignment) - (uintptr_t)a->mem`;
if `offset + size <= a->cap` (a `size_t` comparison whose sum wraps),
set `prev_offset = offset`, `curr_offset = offset + size`, zero the span
and return its pointer; otherwise set `errno = ENOMEM` and return `NULL`. -/
def arena_aligned_alloc (a : Arena) (m : Mem) (alignment size : Nat) :
    Option Nat × Arena × Mem :=
  let curr := wadd a.mem a.curr_offset
  let offset := wsub (align_forward curr alignment) a.mem
  if wadd offset size ≤ a.cap then
    let ptr := a.mem + offset
    (some ptr, ⟨a.mem, a.cap, wadd offset size, offset⟩, memset m ptr 0 size)
  else
    (none, a, m)

/-- `arena_aligned_realloc` (`src/arena.h:84-104`).  Paths:
`old == NULL || old_size == 0` delegates to `arena_aligned_alloc`;
a pointer outside `[mem, mem+cap)` fails with `ENOMEM`;
the most recent allocation (`mem + prev_offset == old`) is resized in
place: `curr_offset = prev_offset + new_size` and, when growing,
`memset(&mem[curr_offset], 0, new_size - old_size)` (note: the source
zeroes starting at the *updated* `curr_offset`);
otherwise a fresh block is allocated and `min(old_size, new_size)` bytes
are `memmove`d into it — with no `NULL` check on the fresh block, exactly
as in the source (`NULL` is address `0` in this model). -/
def arena_aligned_realloc (a : Arena) (m : Mem)
    (alignment old_mem old_size new_size : Nat) : Option Nat × Arena × Mem :=
  if old_mem = 0 ∨ old_size = 0 then
    arena_aligned_alloc a m alignment new_size
  else if a.mem ≤ old_mem ∧ old_mem < a.mem + a.cap then
    if a.mem + a.prev_offset = old_mem then
      let curr' := wadd a.prev_offset new_size
      let m' := if old_size < new_size then
          memset m (a.mem + curr') 0 (new_size - old_size) else m
      (some old_mem, ⟨a.mem, a.cap, curr', a.prev_offset⟩, m')
    else
      let res := arena_aligned_alloc a m alignment new_size
      let copy_size := min old_size new_size
      let dst := match res.1 with
        | none => 0
        | some p => p
      (res.1, res.2.1, memmove res.2.2 dst old_mem copy_size)
  else
    (none, a, m)

/-- `ARENA_DEFAULT_ALIGNMENT` = `2*sizeof(void *)` = 16 on a 64-bit
machine (`src/arena.h:10`). -/
def ARENA_DEFAULT_ALIGNMENT : Nat := 2 * 8

/-- `arena_init` (`src/arena.h:203-208`): bind the backing block, zero both
offsets. -/
def arena_init (mem cap : Nat) : Arena := ⟨mem, cap, 0, 0⟩

/-- `arena_deinit` (`src/arena.h:210-216`): zero the live bytes, clear every
field (`mem = NULL`, i.e. address 0). -/
def arena_deinit (a : Arena) (m : Mem) : Arena × Mem :=
  (⟨0, 0, 0, 0⟩, memset m a.mem 0 a.curr_offset)

/-- `arena_alloc` (`src/arena.h:218-220`): default-alignment allocation. -/
def arena_alloc (a : Arena) (m : Mem) (size : Nat) : Option Nat × Arena × Mem :=
  arena_aligned_alloc a m ARENA_DEFAULT_ALIGNMENT size

/-- `arena_realloc` (`src/arena.h:222-224`): default-alignment
reallocation. -/
def arena_realloc (a : Arena) (m : Mem) (old_mem old_size new_size : Nat) :
    Option Nat × Arena × Mem :=
  arena_aligned_realloc a m ARENA_DEFAULT_ALIGNMENT old_mem old_size new_size

/-- `arena_reset` (`src/arena.h:280-283`): rewind both offsets, leave the
bytes. -/
def arena_reset (a : Arena) : Arena :=
  { a with curr_offset := 0, prev_offset := 0 }

/-- `arena_zero` (`src/arena.h:285-288`): zero `[mem, mem+curr_offset)`
then reset. -/
def arena_zero (a : Arena) (m : Mem) : Arena × Mem :=
  (arena_reset a, memset m a.mem 0 a.curr_offset)

/-- C `strlen`, fuel-bounded walk from `p` to the first zero byte.  A C
string must terminate within the address space, so fuel `W64` is exact. -/
def strlenFuel (m : Mem) (p : Nat) : Nat → Nat
  | 0 => 0
  | fuel + 1 => if m p = 0 then 0 else 1 + strlenFuel m (p + 1) fuel

/-- C `strlen(p)`. -/
def strlen (m : Mem) (p : Nat) : Nat := strlenFuel m p W64

/-- `arena_strdup` (`src/arena.h:234-242`): `len = strlen(src)+1`, allocate
`len` bytes, `memcpy(dup, src, len)`, then `dup[len] = '\0'` — the final
store is translated exactly as written in the source (it lands one byte
past the allocated span). -/
def arena_strdup (a : Arena) (m : Mem) (src : Nat) : Option Nat × Arena × Mem :=
  let len := strlen m src + 1
  let res := arena_alloc a m len
  match res.1 with
  | some dup => (some dup, res.2.1, store (memcpy res.2.2 dup src len) (dup + len) 0)
  | none => (none, res.2.1, res.2.2)

/-- Exact (non-wrapping) forward alignment: the least multiple of `k` that
is `≥ x`.  Used to state what the code's wrapped computation yields on
inputs where no wraparound occurs. -/
def alignUp (x k : Nat) : Nat := x + (k - x % k) % k

/-- The exact offset at which `arena_aligned_alloc a _ al _` places its
allocation, computed without machine wraparound. -/
def allocOff (a : Arena) (al : Nat) : Nat :=
  alignUp (a.mem + a.curr_offset) al - a.mem

/-- A machine-representable power-of-two alignment. -/
def GoodAl (al : Nat) : Prop := ∃ i, i < 64 ∧ al = 2 ^ i

/-- The arena offset invariant from the spec:
`0 <= prev_offset <= curr_offset <= cap` (the `0 ≤` part is inherent in
`Nat`). -/
def ArenaInv (a : Arena) : Prop :=
  a.prev_offset ≤ a.curr_offset ∧ a.curr_offset ≤ a.cap

/-- One arena operation, for stating properties of operation sequences. -/
inductive Op where
  | alloc (alignment size : Nat)
  | realloc (alignment old_mem old_size new_size : Nat)
  | reset
  | zero
  | deinit

/-- Apply one operation to an arena state, discarding the returned
pointer. -/
def runOp (s : Arena × Mem) : Op → Arena × Mem
  | .alloc al size => (arena_aligned_alloc s.1 s.2 al size).2
  | .realloc al old osz nsz => (arena_aligned_realloc s.1 s.2 al old osz nsz).2
  | .reset => (arena_reset s.1, s.2)
  | .zero => arena_zero s.1 s.2
  | .deinit => arena_deinit s.1 s.2

/-- Run a sequence of operations. -/
def runOps : Arena × Mem → List Op → Arena × Mem
  | s, [] => s
  | s, op :: ops => runOps (runOp s op) ops

/-- Side conditions under which an operation is free of the code's two
arithmetic blind spots: an `alloc`-path request must not make the exact
`offset + size` wrap the machine word, and an in-place reallocation must
keep `prev_offset + new_size` within capacity (the code re-checks
neither). -/
def Ok (a : Arena) : Op → Prop
  | .alloc al size =>
      GoodAl al ∧ a.mem + a.cap + al ≤ W64 ∧ allocOff a al + size < W64
  | .realloc al old osz nsz =>
      GoodAl al ∧ a.mem + a.cap + al ≤ W64 ∧
      ((old = 0 ∨ osz = 0) → allocOff a al + nsz < W64) ∧
      (¬(old = 0 ∨ osz = 0) → a.mem ≤ old ∧ old < a.mem + a.cap →
        (a.mem + a.prev_offset = old → a.prev_offset + nsz ≤ a.cap) ∧
        (a.mem + a.prev_offset ≠ old → allocOff a al + nsz < W64))
  | .reset => True
  | .zero => True
  | .deinit => True

/-- `Ok` holding at every step of a sequence. -/
def OkSeq : Arena × Mem → List Op → Prop
  | _, [] => True
  | s, op :: ops => Ok s.1 op ∧ OkSeq (runOp s op) ops

/-- All-ones initial memory, for exhibiting bytes the code fails to zero. -/
def M1 : Mem := fun _ => 1

/-- All-zero initial memory. -/
def Mz : Mem := fun _ => 0

/-- Initial memory for the null-`memmove` scenario: byte `42` at the old
allocation, byte `7` at address `0` (`NULL`). -/
def M8 : Mem := fun addr => if addr = 1600 then 42 else if addr = 0 then 7 else 0

/-- Initial memory for the `arena_strdup` scenario: the one-character
string `"A"` at address `3000`, and byte `9` at address `1602`, the byte
just past the two bytes `arena_strdup` will allocate. -/
def M9 : Mem := fun addr => if addr = 3000 then 65 else if addr = 1602 then 9 else 0

/-- Initial memory for the relocation scenario: bytes `42`, `43` at the
start of the arena block. -/
def M7 : Mem := fun addr => if addr = 1600 then 42 else if addr = 1601 then 43 else 0

/-! ### Arithmetic and memory lemmas -/

lemma wsub_eq {x y : Nat} (h : y ≤ x) (hx : x < W64) : wsub x y = x - y := by
  simp only [wsub, W64] at *; omega

lemma wadd_eq {x y : Nat} (h : x + y < W64) : wadd x y = x + y := by
  simp only [wadd, W64] at *; omega

lemma le_alignUp (x k : Nat) : x ≤ alignUp x k := by
  simp [alignUp]

lemma alignUp_lt (x : Nat) {k : Nat} (hk : 0 < k) : alignUp x k < x + k := by
  simp only [alignUp]
  have h1 : (k - x % k) % k < k := Nat.mod_lt _ hk
  omega

lemma alignUp_mod (x : Nat) {k : Nat} (hk : 0 < k) : alignUp x k % k = 0 := by
  simp only [alignUp]
  rcases Nat.eq_zero_or_pos (x % k) with h | h
  · simp [h, Nat.mod_self]
  · have h2 : x % k < k := Nat.mod_lt _ hk
    have h3 : (k - x % k) % k = k - x % k := Nat.mod_eq_of_lt (by omega)
    have h4 : x + (k - x % k) = k * (x / k) + k := by
      have := Nat.div_add_mod x k
      omega
    rw [h3, h4, Nat.mul_add_mod]
    exact Nat.mod_self k

/-- On inputs whose aligned result does not wrap the machine word, the
code's bitmask alignment agrees with exact forward alignment. -/
lemma align_forward_eq {i : Nat} (ptr : Nat) (hi : i < 64) (hptr : ptr + 2 ^ i ≤ W64) :
    align_forward ptr (2 ^ i) = alignUp ptr (2 ^ i) := by
  have hk : 0 < 2 ^ i := Nat.pos_pow_of_pos i (by norm_num)
  have hkW : 2 ^ i < W64 := by
    simp only [W64]
    exact Nat.pow_lt_pow_right (by norm_num) hi
  have h1 : wsub (2 ^ i) 1 = 2 ^ i - 1 := wsub_eq hk hkW
  simp only [align_forward, h1, Nat.and_pow_two_sub_one_eq_mod]
  rcases Nat.eq_zero_or_pos (ptr % 2 ^ i) with h | h
  · simp [h, alignUp]
  · have h2 : ptr % 2 ^ i < 2 ^ i := Nat.mod_lt _ hk
    have h5 : ptr % 2 ^ i ≤ 2 ^ i := le_of_lt h2
    rw [if_pos (by omega)]
    have h3 : wsub (2 ^ i) (ptr % 2 ^ i) = 2 ^ i - ptr % 2 ^ i := wsub_eq h5 hkW
    rw [h3]
    have h4 : ptr + (2 ^ i - ptr % 2 ^ i) < W64 := by omega
    rw [wadd_eq h4]
    simp only [alignUp]
    have h6 : (2 ^ i - ptr % 2 ^ i) % 2 ^ i = 2 ^ i - ptr % 2 ^ i := Nat.mod_eq_of_lt (by omega)
    rw [h6]

lemma memset_read_in {m : Mem} {p v n addr : Nat} (h1 : p ≤ addr) (h2 : addr < p + n) :
    memset m p v n addr = v := by
  simp [memset, h1, h2]

lemma memset_read_out {m : Mem} {p v n addr : Nat} (h : addr < p ∨ p + n ≤ addr) :
    memset m p v n addr = m addr := by
  simp only [memset]
  rw [if_neg]
  omega

lemma memmove_read_in {m : Mem} {dst src n addr : Nat} (h1 : dst ≤ addr) (h2 : addr < dst + n) :
    memmove m dst src n addr = m (src + (addr - dst)) := by
  simp [memmove, h1, h2]

lemma memmove_read_out {m : Mem} {dst src n addr : Nat} (h : addr < dst ∨ dst + n ≤ addr) :
    memmove m dst src n addr = m addr := by
  simp only [memmove]
  rw [if_neg]
  omega

/-- Exact behaviour of `arena_aligned_alloc` when the requested span does
not wrap the machine word: the allocation offset is the aligned cursor,
success is exactly `offset + size ≤ cap`, and failure leaves the arena
untouched. -/
lemma alloc_spec (a : Arena) (m : Mem) {al i : Nat} (size : Nat)
    (hi : i < 64) (hal : al = 2 ^ i)
    (hc : a.curr_offset ≤ a.cap) (hW : a.mem + a.cap + al ≤ W64) :
    a.curr_offset ≤ allocOff a al ∧ allocOff a al < a.curr_offset + al ∧
    (allocOff a al + size ≤ a.cap →
      arena_aligned_alloc a m al size =
        (some (a.mem + allocOff a al),
         ⟨a.mem, a.cap, allocOff a al + size, allocOff a al⟩,
         memset m (a.mem + allocOff a al) 0 size)) ∧
    (a.cap < allocOff a al + size → allocOff a al + size < W64 →
      arena_aligned_alloc a m al size = (none, a, m)) := by
  have hk : 0 < al := by rw [hal]; exact Nat.pos_pow_of_pos i (by norm_num)
  have hcapW : a.cap < W64 := by omega
  have hcw : a.mem + a.curr_offset < W64 := by omega
  have e1 : wadd a.mem a.curr_offset = a.mem + a.curr_offset := wadd_eq hcw
  have e2 : align_forward (a.mem + a.curr_offset) al = alignUp (a.mem + a.curr_offset) al := by
    rw [hal]
    exact align_forward_eq _ hi (by rw [← hal]; omega)
  have hup1 : a.mem + a.curr_offset ≤ alignUp (a.mem + a.curr_offset) al :=
    le_alignUp _ _
  have hup2 : alignUp (a.mem + a.curr_offset) al < a.mem + a.curr_offset + al :=
    alignUp_lt _ hk
  have e3 : wsub (alignUp (a.mem + a.curr_offset) al) a.mem =
      alignUp (a.mem + a.curr_offset) al - a.mem :=
    wsub_eq (by omega) (by omega)
  have hoff : allocOff a al = alignUp (a.mem + a.curr_offset) al - a.mem := rfl
  refine ⟨by omega, by omega, ?_, ?_⟩
  · intro hfit
    have hlt : allocOff a al + size < W64 := by omega
    have e4 : wadd (allocOff a al) size = allocOff a al + size := wadd_eq hlt
    simp only [arena_aligned_alloc, e1, e2, e3, ← hoff, e4, if_pos hfit]
  · intro hover hlt
    have e4 : wadd (allocOff a al) size = allocOff a al + size := wadd_eq hlt
    simp only [arena_aligned_alloc, e1, e2, e3, ← hoff, e4]
    rw [if_neg (by omega)]

lemma strlenFuel_eq (m : Mem) :
    ∀ (n p fuel : Nat), n < fuel → m (p + n) = 0 →
      (∀ j, j < n → m (p + j) ≠ 0) → strlenFuel m p fuel = n := by
  intro n
  induction n with
  | zero =>
    intro p fuel hf h0 _
    cases fuel with
    | zero => omega
    | succ f =>
      have hp : m p = 0 := by simpa using h0
      simp [strlenFuel, hp]
  | succ k ih =>
    intro p fuel hf h0 hj
    cases fuel with
    | zero => omega
    | succ f =>
      have hp : m p ≠ 0 := by simpa using hj 0 (by omega)
      have hrec : strlenFuel m (p + 1) f = k := by
        apply ih (p + 1) f (by omega)
        · have he : p + 1 + k = p + (k + 1) := by omega
          rw [he]; exact h0
        · intro j hjk
          have h1 := hj (j + 1) (by omega)
          have he : p + 1 + j = p + (j + 1) := by omega
          rw [he]; exact h1
      simp [strlenFuel, hp, hrec]
      omega

/-- `strlen` computes the distance to the first zero byte. -/
lemma strlen_eq {m : Mem} {p n : Nat} (hn : n < W64) (h0 : m (p + n) = 0)
    (hj : ∀ j, j < n → m (p + j) ≠ 0) : strlen m p = n :=
  strlenFuel_eq m n p W64 hn h0 hj

/-- `v & (v-1) = 0`, for positive `v`, characterises the powers of two. -/
lemma and_pred_eq_zero_iff :
    ∀ v : Nat, 1 ≤ v → (v &&& (v - 1) = 0 ↔ ∃ i, v = 2 ^ i) := by
  intro v
  induction v using Nat.strong_induction_on with
  | _ v ih =>
    intro hv
    rcases Nat.even_or_odd v with he | ho
    · obtain ⟨k, hk⟩ := he
      have hk2 : v = 2 * k := by omega
      have hkpos : 1 ≤ k := by omega
      have hdiv : (v &&& (v - 1)) / 2 = k &&& (k - 1) := by
        rw [Nat.and_div_two]
        congr 1
        · omega
        · omega
      constructor
      · intro h
        have h2 : k &&& (k - 1) = 0 := by rw [← hdiv, h]
        obtain ⟨i, hi⟩ := (ih k (by omega) hkpos).mp h2
        exact ⟨i + 1, by rw [hk2, hi]; ring⟩
      · rintro ⟨i, hi⟩
        have hipos : 1 ≤ i := by
          rcases Nat.eq_zero_or_pos i with h | h
          · subst h; simp at hi; omega
          · exact h
        have hks : k = 2 ^ (i - 1) := by
          have hsplit : 2 ^ i = 2 * 2 ^ (i - 1) := by
            conv_lhs => rw [show i = 1 + (i - 1) by omega]
            rw [pow_add]; ring
          omega
        have h2 : k &&& (k - 1) = 0 := (ih k (by omega) hkpos).mpr ⟨i - 1, hks⟩
        have hlow : (v &&& (v - 1)) % 2 = 0 := by
          rcases Nat.mod_two_eq_zero_or_one (v &&& (v - 1)) with h | h
          · exact h
          · exfalso
            have h3 := (Nat.and_mod_two_eq_one.mp h).1
            omega
        omega
    · obtain ⟨k, hk⟩ := ho
      rcases Nat.eq_zero_or_pos k with hk0 | hkpos
      · subst hk0
        have h1 : v = 1 := by omega
        subst h1
        constructor
        · intro _; exact ⟨0, by norm_num⟩
        · intro _; decide
      · have hdiv : (v &&& (v - 1)) / 2 = k := by
          rw [Nat.and_div_two]
          have e1 : v / 2 = k := by omega
          have e2 : (v - 1) / 2 = k := by omega
          rw [e1, e2, Nat.and_self]
        constructor
        · intro h
          exfalso
          rw [h] at hdiv
          simp at hdiv
          omega
        · rintro ⟨i, hi⟩
          exfalso
          rcases Nat.eq_zero_or_pos i with h0 | hip
          · subst h0; simp at hi; omega
          · have hsplit : 2 ^ i = 2 * 2 ^ (i - 1) := by
              conv_lhs => rw [show i = 1 + (i - 1) by omega]
              rw [pow_add]; ring
            omega

/-! ### Invariant preservation -/

lemma cap_lt_W64 {a : Arena} {al : Nat} (hk : 0 < al) (hW : a.mem + a.cap + al ≤ W64) :
    a.cap < W64 := by omega

lemma alloc_inv {a : Arena} (m : Mem) {al i size : Nat}
    (hi : i < 64) (hal : al = 2 ^ i) (hInv : ArenaInv a)
    (hW : a.mem + a.cap + al ≤ W64) (hov : allocOff a al + size < W64) :
    ArenaInv (arena_aligned_alloc a m al size).2.1 := by
  obtain ⟨h1, h2, hsucc, hfail⟩ := alloc_spec a m size hi hal hInv.2 hW
  rcases le_or_lt (allocOff a al + size) a.cap with hfit | hover
  · rw [hsucc hfit]
    show allocOff a al ≤ allocOff a al + size ∧ allocOff a al + size ≤ a.cap
    exact ⟨by omega, by omega⟩
  · rw [hfail hover hov]
    exact hInv

lemma step_inv {a : Arena} {m : Mem} {op : Op} (hInv : ArenaInv a) (hok : Ok a op) :
    ArenaInv (runOp (a, m) op).1 := by
  cases op with
  | alloc al size =>
    obtain ⟨⟨i, hi, hal⟩, hW, hov⟩ := hok
    exact alloc_inv m hi hal hInv hW hov
  | realloc al old osz nsz =>
    obtain ⟨⟨i, hi, hal⟩, hW, hok1, hok2⟩ := hok
    have hk : 0 < al := by rw [hal]; exact Nat.pos_pow_of_pos i (by norm_num)
    simp only [runOp, arena_aligned_realloc]
    by_cases h1 : old = 0 ∨ osz = 0
    · rw [if_pos h1]
      exact alloc_inv m hi hal hInv hW (hok1 h1)
    · rw [if_neg h1]
      by_cases h2 : a.mem ≤ old ∧ old < a.mem + a.cap
      · rw [if_pos h2]
        by_cases h3 : a.mem + a.prev_offset = old
        · rw [if_pos h3]
          have hle : a.prev_offset + nsz ≤ a.cap := ((hok2 h1) h2).1 h3
          have hcW : a.cap < W64 := by omega
          have e : wadd a.prev_offset nsz = a.prev_offset + nsz := wadd_eq (by omega)
          simp only [e]
          show a.prev_offset ≤ a.prev_offset + nsz ∧ a.prev_offset + nsz ≤ a.cap
          exact ⟨by omega, by omega⟩
        · rw [if_neg h3]
          have hov2 : allocOff a al + nsz < W64 := ((hok2 h1) h2).2 h3
          exact alloc_inv m hi hal hInv hW hov2
      · rw [if_neg h2]
        exact hInv
  | reset =>
    exact ⟨le_refl 0, Nat.zero_le _⟩
  | zero =>
    exact ⟨le_refl 0, Nat.zero_le _⟩
  | deinit =>
    exact ⟨le_refl 0, le_refl 0⟩

lemma runOps_inv : ∀ (ops : List Op) (s : Arena × Mem),
    ArenaInv s.1 → OkSeq s ops → ArenaInv (runOps s ops).1 := by
  intro ops
  induction ops with
  | nil => intro s h _; exact h
  | cons op rest ih =>
    intro s h hok
    exact ih (runOp s op) (step_inv h hok.1) hok.2

/-! ### Claim theorems -/

/-- C5, counterexample: at the very top of the address space the claimed
alignment properties fail as stated — `align_forward(2^64-1, 2)` wraps
around to `0`, which is smaller than the input address. -/
theorem align_forward_wraps_at_top :
    align_forward (2 ^ 64 - 1) 2 = 0 ∧
    ¬ (2 ^ 64 - 1 ≤ align_forward (2 ^ 64 - 1) 2 ∧
       align_forward (2 ^ 64 - 1) 2 % 2 = 0 ∧
       align_forward (2 ^ 64 - 1) 2 - (2 ^ 64 - 1) < 2) := by
  refine ⟨by decide, by decide⟩

/-- C5, amended: for every power-of-two alignment `k = 2^i` (`i < 64`) and
every address `a` whose aligned result is machine-representable
(`a + k ≤ 2^64`), `align_forward(a, k)` is at least `a`, is a multiple of
`k`, and exceeds `a` by less than `k`. -/
theorem align_forward_correct (a k i : Nat) (hi : i < 64) (hk : k = 2 ^ i)
    (ha : a + k ≤ W64) :
    a ≤ align_forward a k ∧ align_forward a k % k = 0 ∧ align_forward a k - a < k := by
  subst hk
  rw [align_forward_eq a hi ha]
  have hkpos : 0 < 2 ^ i := Nat.pos_pow_of_pos i (by norm_num)
  refine ⟨le_alignUp _ _, alignUp_mod _ hkpos, ?_⟩
  have h1 := alignUp_lt a hkpos
  have h2 := le_alignUp a (2 ^ i)
  omega

/-- C5, witness: the amended theorem applied at `a = 5`, `k = 4`. -/
theorem align_forward_correct_witness :
    5 + 4 ≤ W64 ∧
    (5 ≤ align_forward 5 4 ∧ align_forward 5 4 % 4 = 0 ∧ align_forward 5 4 - 5 < 4) :=
  ⟨by decide, align_forward_correct 5 4 2 (by decide) (by decide) (by decide)⟩

/-- C10, counterexample: `pow_2 0` is `true` (the `uintptr_t` expression
`0 & (0-1)` wraps to `0 & 0xFF..F = 0`), yet `0` has no set bit at all,
so "true iff exactly one set bit" fails at `v = 0`. -/
theorem pow_2_zero_cex : pow_2 0 = true ∧ ¬ ∃ i : Nat, (0 : Nat) = 2 ^ i := by
  constructor
  · decide
  · rintro ⟨i, hi⟩
    have := Nat.pos_pow_of_pos i (show 0 < 2 by norm_num)
    omega

/-- C10, amended: for machine-representable `v` (`v < 2^64`), `pow_2 v`
returns `true` iff `v` has exactly one set bit (`v = 2^i`) **or** `v = 0`. -/
theorem pow_2_iff (v : Nat) (hv : v < W64) :
    pow_2 v = true ↔ (v = 0 ∨ ∃ i, v = 2 ^ i) := by
  rcases Nat.eq_zero_or_pos v with h0 | hpos
  · subst h0
    simp [pow_2]
  · have e : wsub v 1 = v - 1 := wsub_eq hpos hv
    simp only [pow_2, e, beq_iff_eq]
    rw [and_pred_eq_zero_iff v hpos]
    constructor
    · intro h; exact Or.inr h
    · rintro (h | h)
      · omega
      · exact h

/-- C10, witness: the amended theorem applied at `v = 8`. -/
theorem pow_2_iff_witness :
    8 < W64 ∧ (pow_2 8 = true ↔ ((8 : Nat) = 0 ∨ ∃ i, (8 : Nat) = 2 ^ i)) :=
  ⟨by decide, pow_2_iff 8 (by decide)⟩

/-- C3, code-bug exhibit: the capacity check `offset + size <= cap` is
`size_t` arithmetic and wraps.  On the arena `⟨1600, 64, 8, 0⟩` with
alignment 16 the aligned offset is 16; requesting `2^64 - 16` bytes makes
the exact aligned end `2^64 > 64`, yet the wrapped sum is `0 ≤ 64`, so the
code *accepts* the request, returns pointer `1616`, and corrupts
`curr_offset` to `0`. -/
theorem alloc_overflow_accepted :
    64 < 16 + (2 ^ 64 - 16) ∧
    (arena_aligned_alloc ⟨1600, 64, 8, 0⟩ Mz 16 (2 ^ 64 - 16)).1 = some 1616 ∧
    (arena_aligned_alloc ⟨1600, 64, 8, 0⟩ Mz 16 (2 ^ 64 - 16)).2.1.curr_offset = 0 := by
  refine ⟨by decide, by decide, by decide⟩

/-- C2, counterexample: allocate 8 bytes from a 16-byte arena, then grow
the (sole, most recent) allocation in place to 100 bytes — the fast path
performs no capacity re-check, so `curr_offset` becomes `100 > 16 = cap`
and the claimed invariant is violated right after a legal operation
sequence. -/
theorem inv_violated_by_inplace_growth :
    (runOps (arena_init 1600 16, Mz) [Op.alloc 16 8, Op.realloc 16 1600 8 100]).1.curr_offset
      = 100 ∧
    (runOps (arena_init 1600 16, Mz) [Op.alloc 16 8, Op.realloc 16 1600 8 100]).1.cap = 16 ∧
    ¬ ArenaInv (runOps (arena_init 1600 16, Mz) [Op.alloc 16 8, Op.realloc 16 1600 8 100]).1 := by
  refine ⟨by decide, by decide, ?_⟩
  intro h
  have h2 := h.2
  revert h2
  decide

/-- C2, amended: `0 ≤ prev_offset ≤ curr_offset ≤ cap` holds after every
operation of every sequence starting from `initialize`, provided each
allocation-path request keeps the exact aligned `offset + size` below
`2^64` and each in-place reallocation keeps `prev_offset + new_size`
within capacity (the code checks neither: `Ok` states exactly these side
conditions, plus power-of-two machine-representable alignments). -/
theorem arena_inv_preserved (mem cap : Nat) (m : Mem) (ops : List Op)
    (hok : OkSeq (arena_init mem cap, m) ops) :
    ArenaInv (runOps (arena_init mem cap, m) ops).1 :=
  runOps_inv ops _ ⟨le_refl 0, Nat.zero_le _⟩ hok

/-- C2, witness: the amended theorem applied to the sequence
`[allocate(16, 8)]` on a fresh 64-byte arena. -/
theorem arena_inv_preserved_witness :
    OkSeq (arena_init 1600 64, Mz) [Op.alloc 16 8] ∧
    ArenaInv (runOps (arena_init 1600 64, Mz) [Op.alloc 16 8]).1 := by
  have hok : OkSeq (arena_init 1600 64, Mz) [Op.alloc 16 8] :=
    ⟨⟨⟨4, by decide, by decide⟩, by decide, by decide⟩, trivial⟩
  exact ⟨hok, arena_inv_preserved 1600 64 Mz _ hok⟩

/-- C1, code-bug exhibit: over all-ones backing memory, `allocate(16, 8)`
returns `P = 1600` and zeroes `[1600, 1608)`; the immediate in-place
`reallocate(P, 8, 16)` returns the same pointer and sets
`curr_offset = 16` as claimed, but the tail byte `P + 8` still reads `1`:
the code's `memset(&mem[curr_offset], ...)` zeroes `[1616, 1624)` — past
the grown span — instead of the newly exposed `[8, 16)`. -/
theorem realloc_inplace_tail_not_zeroed :
    (arena_aligned_alloc (arena_init 1600 64) M1 16 8).1 = some 1600 ∧
    (arena_aligned_realloc (arena_aligned_alloc (arena_init 1600 64) M1 16 8).2.1
        (arena_aligned_alloc (arena_init 1600 64) M1 16 8).2.2 16 1600 8 16).1 = some 1600 ∧
    (arena_aligned_realloc (arena_aligned_alloc (arena_init 1600 64) M1 16 8).2.1
        (arena_aligned_alloc (arena_init 1600 64) M1 16 8).2.2 16 1600 8 16).2.1.curr_offset
      = 16 ∧
    (arena_aligned_realloc (arena_aligned_alloc (arena_init 1600 64) M1 16 8).2.1
        (arena_aligned_alloc (arena_init 1600 64) M1 16 8).2.2 16 1600 8 16).2.2 (1600 + 8)
      = 1 := by
  refine ⟨by decide, by decide, by decide, by decide⟩

/-- C8, code-bug exhibit: a relocating `reallocate` whose internal
allocation fails (`32 + 64 > 32`) does surface the failure (`none`), but
first executes `memmove(NULL, old, 8)` — the code has no `NULL` check —
copying the old bytes to address `0`: the byte at `NULL` changes from `7`
to `42`. -/
theorem realloc_failure_memmove_to_null :
    (arena_aligned_realloc ⟨1600, 32, 32, 16⟩ M8 16 1600 8 64).1 = none ∧
    (arena_aligned_realloc ⟨1600, 32, 32, 16⟩ M8 16 1600 8 64).2.2 0 = 42 ∧
    M8 0 = 7 := by
  refine ⟨by decide, by decide, by decide⟩

/-- C4, counterexample: the claimed "succeeds exactly when the aligned
offset plus size is at most capacity" fails for wrapping requests — here
the exact aligned end `8 + (2^64 - 8) = 2^64` exceeds capacity `32`, yet
the allocation does not fail. -/
theorem alloc_not_exact_success_condition :
    (arena_aligned_alloc ⟨3200, 32, 4, 0⟩ Mz 8 (2 ^ 64 - 8)).1 ≠ none ∧
    ¬ (allocOff ⟨3200, 32, 4, 0⟩ 8 + (2 ^ 64 - 8) ≤ 32) := by
  refine ⟨by decide, by decide⟩

/-- C4, amended: for requests whose exact aligned `offset + size` does not
wrap the machine word, `allocate` succeeds exactly when
`offset + size ≤ cap`; on success it sets `prev_offset = offset`,
`curr_offset = offset + size` and returns the pointer `mem + offset`
(zeroing the span); on failure it returns `NULL` and leaves the arena and
memory exactly as they were. -/
theorem arena_aligned_alloc_correct (a : Arena) (m : Mem) (al size i : Nat)
    (hi : i < 64) (hal : al = 2 ^ i) (hc : a.curr_offset ≤ a.cap)
    (hW : a.mem + a.cap + al ≤ W64) (hov : allocOff a al + size < W64) :
    ((arena_aligned_alloc a m al size).1 ≠ none ↔ allocOff a al + size ≤ a.cap) ∧
    (allocOff a al + size ≤ a.cap →
      arena_aligned_alloc a m al size =
        (some (a.mem + allocOff a al),
         ⟨a.mem, a.cap, allocOff a al + size, allocOff a al⟩,
         memset m (a.mem + allocOff a al) 0 size)) ∧
    (a.cap < allocOff a al + size →
      arena_aligned_alloc a m al size = (none, a, m)) := by
  obtain ⟨h1, h2, hsucc, hfail⟩ := alloc_spec a m size hi hal hc hW
  refine ⟨?_, hsucc, fun h => hfail h hov⟩
  constructor
  · intro hne
    by_contra hover
    rw [hfail (by omega) hov] at hne
    simp at hne
  · intro hfit
    rw [hsucc hfit]
    simp

/-- C4, witness: the amended theorem's success branch applied to
`allocate(16, 8)` on a fresh 64-byte arena. -/
theorem arena_aligned_alloc_correct_witness :
    allocOff (arena_init 1600 64) 16 + 8 ≤ 64 ∧
    arena_aligned_alloc (arena_init 1600 64) Mz 16 8 =
      (some (1600 + allocOff (arena_init 1600 64) 16),
       ⟨1600, 64, allocOff (arena_init 1600 64) 16 + 8, allocOff (arena_init 1600 64) 16⟩,
       memset Mz (1600 + allocOff (arena_init 1600 64) 16) 0 8) :=
  ⟨by decide,
   (arena_aligned_alloc_correct (arena_init 1600 64) Mz 16 8 4 (by decide) (by decide)
      (by decide) (by decide) (by decide)).2.1 (by decide)⟩

/-- C6: every successful `arena_aligned_alloc` — on any arena state, any
memory, any alignment and size, with no side condition at all — returns a
span whose `size` bytes all read as zero immediately afterwards. -/
theorem alloc_zero_fill (a : Arena) (m : Mem) (al size p : Nat)
    (a' : Arena) (m' : Mem)
    (h : arena_aligned_alloc a m al size = (some p, a', m')) :
    ∀ j, j < size → m' (p + j) = 0 := by
  intro j hj
  simp only [arena_aligned_alloc] at h
  split at h
  · simp only [Prod.mk.injEq, Option.some.injEq] at h
    obtain ⟨hp, ha2, hm⟩ := h
    subst hp
    rw [← hm]
    exact memset_read_in (Nat.le_add_right _ _) (by omega)
  · simp at h

/-- C6, witness: byte 3 of the span returned by `allocate(16, 8)` over
all-ones memory reads zero. -/
theorem alloc_zero_fill_witness :
    (arena_aligned_alloc (arena_init 1600 64) M1 16 8).2.2 (1600 + 3) = 0 :=
  alloc_zero_fill (arena_init 1600 64) M1 16 8 1600
    (arena_aligned_alloc (arena_init 1600 64) M1 16 8).2.1
    (arena_aligned_alloc (arena_init 1600 64) M1 16 8).2.2 rfl 3 (by decide)

/-- C7: relocation correctness.  If `P = mem + p` was an earlier
allocation of size `N ≥ 1` with at least one further allocation after it
(`p + N ≤ prev_offset`), then `reallocate(P, N, M)` with a succeeding
internal allocation returns a new pointer `mem + allocOff ≠ P` whose
first `min N M` bytes equal the bytes `P` held before the call. -/
theorem realloc_relocation_correct (a : Arena) (m : Mem) (al i p N M : Nat)
    (hi : i < 64) (hal : al = 2 ^ i)
    (hmem : 1 ≤ a.mem) (hInv : ArenaInv a) (hN : 1 ≤ N)
    (hp : p + N ≤ a.prev_offset)
    (hW : a.mem + a.cap + al ≤ W64)
    (hfit : allocOff a al + M ≤ a.cap) :
    (arena_aligned_realloc a m al (a.mem + p) N M).1 = some (a.mem + allocOff a al) ∧
    a.mem + allocOff a al ≠ a.mem + p ∧
    ∀ j, j < min N M →
      (arena_aligned_realloc a m al (a.mem + p) N M).2.2 (a.mem + allocOff a al + j) =
        m (a.mem + p + j) := by
  obtain ⟨hInv1, hInv2⟩ := hInv
  obtain ⟨ho1, ho2, hsucc, hfail⟩ := alloc_spec a m M hi hal hInv2 hW
  have hpc : p < a.cap := by omega
  have h1 : ¬ (a.mem + p = 0 ∨ N = 0) := by omega
  have h2 : a.mem ≤ a.mem + p ∧ a.mem + p < a.mem + a.cap := ⟨by omega, by omega⟩
  have h3 : a.mem + a.prev_offset ≠ a.mem + p := by omega
  have hre : arena_aligned_realloc a m al (a.mem + p) N M =
      (some (a.mem + allocOff a al),
       ⟨a.mem, a.cap, allocOff a al + M, allocOff a al⟩,
       memmove (memset m (a.mem + allocOff a al) 0 M) (a.mem + allocOff a al)
         (a.mem + p) (min N M)) := by
    simp only [arena_aligned_realloc]
    rw [if_neg h1, if_pos h2, if_neg h3, hsucc hfit]
  rw [hre]
  refine ⟨rfl, by omega, ?_⟩
  intro j hj
  show memmove (memset m (a.mem + allocOff a al) 0 M) (a.mem + allocOff a al)
      (a.mem + p) (min N M) (a.mem + allocOff a al + j) = m (a.mem + p + j)
  rw [memmove_read_in (Nat.le_add_right _ _) (by omega)]
  have e : a.mem + allocOff a al + j - (a.mem + allocOff a al) = j := by omega
  rw [e]
  exact memset_read_out (Or.inl (by omega))

/-- C7, witness: on the arena `⟨1600, 64, 20, 16⟩` (an 8-byte allocation
at offset 0 followed by one at offset 16), relocating the first
allocation to 12 bytes yields the fresh pointer `1632` carrying the old
bytes (`43` at index 1). -/
theorem realloc_relocation_correct_witness :
    (arena_aligned_realloc ⟨1600, 64, 20, 16⟩ M7 16 1600 8 12).1 = some 1632 ∧
    (arena_aligned_realloc ⟨1600, 64, 20, 16⟩ M7 16 1600 8 12).2.2 (1632 + 1) = 43 := by
  have h := realloc_relocation_correct ⟨1600, 64, 20, 16⟩ M7 16 4 0 8 12
    (by decide) (by decide) (by decide) ⟨by decide, by decide⟩ (by decide) (by decide)
    (by decide) (by decide)
  have e : allocOff ⟨1600, 64, 20, 16⟩ 16 = 32 := by decide
  constructor
  · have h1 := h.1
    rw [e] at h1
    simpa using h1
  · have h3 := h.2.2 1 (by decide)
    rw [e] at h3
    simpa using h3

/-- C9, code-bug exhibit: duplicating the string `"A"` (bytes `65, 0` at
address 3000) allocates `strlen + 1 = 2` bytes — the span `[1600, 1602)`
— copies both bytes, and then executes `dup[len] = '\0'`, writing address
`1602`, one byte *past* the allocated span: the byte there goes from `9`
to `0`. -/
theorem strdup_writes_past_allocation :
    (arena_strdup (arena_init 1600 64) M9 3000).1 = some 1600 ∧
    (arena_strdup (arena_init 1600 64) M9 3000).2.1.curr_offset = 2 ∧
    (arena_strdup (arena_init 1600 64) M9 3000).2.2 1602 = 0 ∧
    M9 1602 = 9 := by
  have hs : strlen M9 3000 = 1 := by
    apply strlen_eq (by decide) (by decide)
    intro j hj
    interval_cases j
    decide
  have key : arena_strdup (arena_init 1600 64) M9 3000 =
      (some 1600, ⟨1600, 64, 2, 0⟩,
       store (memcpy (memset M9 1600 0 2) 1600 3000 2) (1600 + 2) 0) := by
    simp only [arena_strdup, hs]
    rfl
  rw [key]
  refine ⟨rfl, rfl, ?_, rfl⟩
  decide
